import Mathlib

/-!
Verification development for `dev/prepare_jvm_release.py`, a release-preparation
script.  The script's pure functions (`normpath`, the branch-name regex search)
are embedded as Lean functions on `List Char` / `String`; its effectful
utilities (`maybe_makedirs`, `cp`, `cd`, the temporary-directory scope and the
orchestrator `main`) are embedded as explicit state-passing functions and as
event traces (printed line vs. executed action).
-/

namespace PrepareJvmRelease

/-! ## Path handling: embedding of `normpath` (posix host)

`normpath` in the source is

  normalized = os.path.join(*path.split("/"))
  if os.path.isabs(path): return os.path.abspath("/") + normalized
  else: return normalized

`str.split("/")` is `splitSlash`; the posix `os.path.join` folds `joinStep`
(the loop body of `posixpath.join`) over the components; `os.path.isabs` tests
for a leading slash and `os.path.abspath("/")` is `"/"`.
-/

/-- `str.split("/")`: split on every slash, keeping empty components. -/
def splitSlash : List Char → List (List Char)
  | [] => [[]]
  | c :: rest =>
    if c = '/' then [] :: splitSlash rest
    else
      match splitSlash rest with
      | [] => [[c]]
      | h :: t => (c :: h) :: t

/-- `os.path.isabs` on posix: the path starts with a slash. -/
def isAbsL (s : List Char) : Bool := s.head? = some '/'

/-- Loop body of `posixpath.join`: append one component `b` to the
accumulated path. -/
def joinStep (path b : List Char) : List Char :=
  if isAbsL b then b
  else if path = [] ∨ path.getLast? = some '/' then path ++ b
  else path ++ '/' :: b

/-- `os.path.join(*parts)` on posix (at least one argument). -/
def joinParts : List (List Char) → List Char
  | [] => []
  | h :: t => t.foldl joinStep h

/-- `normpath` of the source, on character lists. -/
def normpathL (p : List Char) : List Char :=
  let normalized := joinParts (splitSlash p)
  if isAbsL p then '/' :: normalized else normalized

/-- `normpath(path)`: normalize a UNIX path to a native (posix) path. -/
def normpath (s : String) : String := String.mk (normpathL s.data)

/-- Two-argument `os.path.join` on posix. -/
def pjoin (a b : String) : String := String.mk (joinStep a.data b.data)

/-- `os.path.basename` on posix: everything after the last slash. -/
def basename (s : String) : String :=
  String.mk ((s.data.reverse.takeWhile (fun c => c ≠ '/')).reverse)

/-! ## Branch-name resolver: `re.search(r"release_[0-9\.]+", text)`

`re.search` returns the leftmost match; `[0-9\.]+` then greedily takes the
longest run of digits and dots.  `tryMatch` attempts the pattern at one
position, `searchRelease` scans positions left to right.
-/

/-- A character accepted by the character class `[0-9\.]`. -/
def isVerChar (c : Char) : Bool := c.isDigit || c = '.'

/-- The literal part of the pattern, `release_`. -/
def relPat : List Char := "release_".data

/-- Try the pattern `release_[0-9\.]+` anchored at the start of `s`. -/
def tryMatch (s : List Char) : Option (List Char) :=
  if relPat.isPrefixOf s then
    let ver := (s.drop relPat.length).takeWhile isVerChar
    if ver = [] then none else some (relPat ++ ver)
  else none

/-- `re.search`: leftmost position at which the pattern matches. -/
def searchRelease : List Char → Option (List Char)
  | [] => none
  | c :: rest =>
    match tryMatch (c :: rest) with
    | some m => some m
    | none => searchRelease rest

/-- `get_current_git_branch`, applied to the decoded `git log --pretty=%d`
output: return the regex match, or raise `ValueError` when there is none. -/
def get_current_git_branch (decorated : String) : Except String String :=
  match searchRelease decorated.data with
  | some m => Except.ok (String.mk m)
  | none => Except.error "Expected branch name of form release_xxx"

/-- Specification-level predicate: `s` contains a substring matched by
`release_[0-9\.]+` (some occurrence of `release_` followed by a nonempty run
of digits and dots). -/
def HasReleaseMatch (s : List Char) : Prop :=
  ∃ pre ver post, s = pre ++ relPat ++ ver ++ post ∧ ver ≠ [] ∧
    ∀ c ∈ ver, isVerChar c = true

/-! ## Filesystem model for `maybe_makedirs` and `cp`

A small filesystem: a set of directories, files with contents, and paths on
which creation is denied (modelling permission-style failures of
`os.makedirs`).  Errno values are the posix ones.
-/

def ENOENT : Nat := 2
def EACCES : Nat := 13
def EEXIST : Nat := 17
def EISDIR : Nat := 21

structure FileSystem where
  dirs : List String
  files : List (String × String)
  denied : List String
  deriving Repr, DecidableEq

/-- Does a file exist at `p`? -/
def containsFile (fs : FileSystem) (p : String) : Bool :=
  fs.files.any (fun kv => kv.1 == p)

/-- Content of the file at `p`, if any (latest entry wins). -/
def lookupFile (fs : FileSystem) (p : String) : Option String :=
  (fs.files.find? (fun kv => kv.1 == p)).map Prod.snd

/-- Write (create or overwrite) the file at `p`. -/
def setFile (fs : FileSystem) (p content : String) : FileSystem :=
  { fs with files := (p, content) :: fs.files }

/-- `os.makedirs(path)`: EEXIST when anything (directory or plain file)
already occupies `path`; other creation failures (modelled by the `denied`
set) raise their own errno; otherwise the directory is created. -/
def os_makedirs (fs : FileSystem) (p : String) : Except Nat FileSystem :=
  if fs.dirs.contains p || containsFile fs p then Except.error EEXIST
  else if fs.denied.contains p then Except.error EACCES
  else Except.ok { fs with dirs := p :: fs.dirs }

/-- `maybe_makedirs`: normalize, call `os.makedirs`, and swallow exactly the
errors whose errno is EEXIST. -/
def maybe_makedirs (fs : FileSystem) (path : String) : Except Nat FileSystem :=
  match os_makedirs fs (normpath path) with
  | Except.ok fs' => Except.ok fs'
  | Except.error e => if e = EEXIST then Except.ok fs else Except.error e

/-- Error-code stand-in for `shutil.SameFileError` (an `OSError` without a
posix errno of its own). -/
def SAMEFILE : Nat := 1000

/-- Destination actually written by `shutil.copy`: when `dst` is a directory
the file goes to `dst/basename(src)`. -/
def shutilTarget (fs : FileSystem) (src dst : String) : String :=
  if fs.dirs.contains dst then pjoin dst (basename src) else dst

/-- `shutil.copy(src, dst)`: fails when `src` is a directory or does not
exist; otherwise writes the source content to the target path. -/
def shutil_copy (fs : FileSystem) (src dst : String) : Except Nat FileSystem :=
  if fs.dirs.contains src then Except.error EISDIR
  else
    match lookupFile fs src with
    | none => Except.error ENOENT
    | some content =>
      let target := shutilTarget fs src dst
      if target = src then Except.error SAMEFILE
      else Except.ok (setFile fs target content)

/-- `cp(source, target)` of the source, filesystem view: normalize both paths
and run `shutil.copy`. -/
def cp (fs : FileSystem) (source target : String) : Except Nat FileSystem :=
  shutil_copy fs (normpath source) (normpath target)

/-- Result discriminator for `Except`. -/
def isError {ε α : Type} : Except ε α → Bool
  | Except.error _ => true
  | Except.ok _ => false

instance instDecEqExcept {ε α : Type} [DecidableEq ε] [DecidableEq α] :
    DecidableEq (Except ε α) := fun x y =>
  match x, y with
  | Except.ok a, Except.ok b =>
    if h : a = b then isTrue (by rw [h])
    else isFalse (by intro hc; cases hc; exact h rfl)
  | Except.ok _, Except.error _ => isFalse (by intro hc; cases hc)
  | Except.error _, Except.ok _ => isFalse (by intro hc; cases hc)
  | Except.error e, Except.error f =>
    if h : e = f then isTrue (by rw [h])
    else isFalse (by intro hc; cases hc; exact h rfl)

/-! ## `cd`: scoped working-directory change

The context manager saves `os.getcwd()`, performs `os.chdir(path)`, prints
`cd path`, runs its body, and in a `finally` block restores the saved
directory — also when the body raises.  A body is an arbitrary state
transformer that may additionally report an exception. -/

structure ProcState where
  cwd : String
  out : List String
  deriving Repr, DecidableEq

/-- `os.chdir` resolution: absolute paths replace the working directory,
relative ones are resolved against it. -/
def chdirResolve (cwd p : String) : String :=
  if isAbsL p.data then p else pjoin cwd p

/-- The `cd` context manager around a `body`. -/
def cd (path : String) (body : ProcState → ProcState × Option Nat)
    (s : ProcState) : ProcState × Option Nat :=
  let p := normpath path
  let saved := s.cwd
  let s1 : ProcState :=
    { cwd := chdirResolve s.cwd p, out := s.out ++ ["cd " ++ p] }
  match body s1 with
  | (s2, r) => ({ s2 with cwd := saved }, r)

/-! ## Temporary-directory scope of the archive phase

`with tempfile.TemporaryDirectory() as tempdir:` creates the directory and on
scope exit removes it together with everything beneath it, on every exit
path.  The state is the set of existing paths. -/

structure ArchState where
  paths : List String
  deriving Repr, DecidableEq

/-- Is `p` the directory `d` itself or a path beneath it? -/
def underDir (d p : String) : Bool :=
  d == p || (d ++ "/").data.isPrefixOf p.data

/-- Cleanup of `TemporaryDirectory.__exit__`: remove the whole tree. -/
def removeTree (st : ArchState) (d : String) : ArchState :=
  { paths := st.paths.filter (fun p => !underDir d p) }

/-- The `with tempfile.TemporaryDirectory() as tempdir:` block. -/
def tempDirScope (tempdir : String)
    (body : ArchState → ArchState × Option Nat)
    (st : ArchState) : ArchState × Option Nat :=
  match body { paths := tempdir :: st.paths } with
  | (st2, r) => (removeTree st2 tempdir, r)

def addPath (st : ArchState) (p : String) : ArchState :=
  { paths := p :: st.paths }

/-- Body of the archive phase: download the published jar, `os.mkdir` the
extraction directory, extract the archive, copy the GPU binary out.  The
outcome of each fallible step is an oracle flag; a failing step raises and
skips the rest. -/
def gpuArchiveBody (tempdir : String) (dlOk mkOk exOk cpOk : Bool)
    (st : ArchState) : ArchState × Option Nat :=
  let zipPath := pjoin tempdir "xgboost4j-gpu_2.12.jar"
  let extractDir := pjoin tempdir "xgboost4j-gpu"
  if !dlOk then (st, some ENOENT)
  else
    let st1 := addPath st zipPath
    if !mkOk then (st1, some EEXIST)
    else
      let st2 := addPath st1 extractDir
      if !exOk then (st2, some EINVALZIP)
      else
        let st3 := addPath st2
          (pjoin extractDir "lib/linux/x86_64/libxgboost4j.so")
        if !cpOk then (st3, some ENOENT)
        else
          (addPath st3
            "xgboost4j-gpu/src/main/resources/lib/linux/x86_64/libxgboost4j.so",
            none)
where EINVALZIP : Nat := 1001

/-- The archive phase of `main`: the body above inside the
temporary-directory scope. -/
def gpuArchivePhase (tempdir : String) (dlOk mkOk exOk cpOk : Bool)
    (st : ArchState) : ArchState × Option Nat :=
  tempDirScope tempdir (gpuArchiveBody tempdir dlOk mkOk exOk cpOk) st

/-! ## Event traces

Each utility both prints a narration line and performs an action; an `Event`
is one or the other.  The trace of `main` is the program-order list of both.
-/

inductive Action where
  | copyA (src dst : String)
  | mkdirpA (p : String)
  | mkdirA (p : String)
  | chdirA (p : String)
  | runA (command : String)
  | downloadA (url fname : String)
  | extractA (zip dst : String)
  | mkdtempA (p : String)
  | rmtreeA (p : String)
  deriving Repr, DecidableEq

inductive Event where
  | msg (line : String)
  | eff (a : Action)
  deriving Repr, DecidableEq

/-- Trace of `cp`: print `cp source target` (already normalized), then copy. -/
def cpEvents (source target : String) : List Event :=
  [Event.msg ("cp " ++ normpath source ++ " " ++ normpath target),
   Event.eff (Action.copyA (normpath source) (normpath target))]

/-- Trace of `maybe_makedirs`: print `mkdir -p path`, then create. -/
def makedirsEvents (path : String) : List Event :=
  [Event.msg ("mkdir -p " ++ normpath path),
   Event.eff (Action.mkdirpA (normpath path))]

/-- Trace of entering `cd`: the `os.chdir` happens first, the `print` of
`cd path` only after it. -/
def cdEnterEvents (path : String) : List Event :=
  [Event.eff (Action.chdirA (normpath path)),
   Event.msg ("cd " ++ normpath path)]

/-- Trace of leaving `cd`: the `finally` block restores the saved working
directory without printing anything. -/
def cdExitEvents (saved : String) : List Event :=
  [Event.eff (Action.chdirA saved)]

/-- Trace of `run`: print the command line, then execute it. -/
def runEvents (command : String) : List Event :=
  [Event.msg command, Event.eff (Action.runA command)]

/-- Trace of `retrieve`: print `url -> filename`, then download. -/
def retrieveEvents (url fname : String) : List Event :=
  [Event.msg (url ++ " -> " ++ fname),
   Event.eff (Action.downloadA url fname)]

def nightlyBucket : String :=
  "https://s3-us-west-2.amazonaws.com/xgboost-nightly-builds"

def mavenRepoUrl : String :=
  "https://s3-us-west-2.amazonaws.com/xgboost-maven-repo/release/ml/dmlc"

/-- Copy loop for the `glob` results of `../demo/data/agaricus.*`: each file
is copied into both test-resource directories. -/
def cpPairChunk : List String → String → String → List Event
  | [], _, _ => []
  | f :: fs, d1, d2 => cpEvents f d1 ++ cpEvents f d2 ++ cpPairChunk fs d1 d2

/-- Copy loop for the `glob` results of `machine.txt.t*`: each file goes to
one directory. -/
def cpChunk : List String → String → List Event
  | [], _ => []
  | f :: fs, d => cpEvents f d ++ cpChunk fs d

/-- Tracker-copy phase: `use_cuda` iterates over `[True, False]`. -/
def trackerPhase : List Event :=
  [Event.msg "====copying pure-Python tracker===="]
  ++ cpEvents "../python-package/xgboost/tracker.py"
      "xgboost4j-gpu/src/main/resources"
  ++ cpEvents "../python-package/xgboost/tracker.py"
      "xgboost4j/src/main/resources"

/-- Test-resources phase: fixture generation in `../demo/CLI/regression`
followed by the copy loops for both build flavors.  `pyexe` is
`sys.executable`; `cwd1` the working directory restored by the inner `cd`;
`agaricus` and `machine` the two `glob` result lists. -/
def testResPhase (pyexe cwd1 : String) (agaricus machine : List String) :
    List Event :=
  [Event.msg "====copying resources for testing===="]
  ++ cdEnterEvents "../demo/CLI/regression"
  ++ runEvents (pyexe ++ " mapfeat.py")
  ++ runEvents (pyexe ++ " mknfold.py machine.txt 1")
  ++ cdExitEvents cwd1
  ++ makedirsEvents "xgboost4j-gpu/src/test/resources"
  ++ makedirsEvents "xgboost4j-spark-gpu/src/test/resources"
  ++ cpPairChunk agaricus "xgboost4j-gpu/src/test/resources"
      "xgboost4j-spark-gpu/src/test/resources"
  ++ cpChunk machine "xgboost4j-spark-gpu/src/test/resources"
  ++ makedirsEvents "xgboost4j/src/test/resources"
  ++ makedirsEvents "xgboost4j-spark/src/test/resources"
  ++ cpPairChunk agaricus "xgboost4j/src/test/resources"
      "xgboost4j-spark/src/test/resources"
  ++ cpChunk machine "xgboost4j-spark/src/test/resources"

/-- Directory-scaffolding phase for the native binaries. -/
def mkdirPhase : List Event :=
  [Event.msg "====Creating directories to hold native binaries===="]
  ++ makedirsEvents "xgboost4j/src/main/resources/lib/linux/x86_64"
  ++ makedirsEvents "xgboost4j/src/main/resources/lib/linux/aarch64"
  ++ makedirsEvents "xgboost4j/src/main/resources/lib/windows/x86_64"
  ++ makedirsEvents "xgboost4j/src/main/resources/lib/macos/x86_64"
  ++ makedirsEvents "xgboost4j/src/main/resources/lib/macos/aarch64"
  ++ makedirsEvents "xgboost4j-gpu/src/main/resources/lib/linux/x86_64"

/-- Nightly-bucket download phase: five native binaries, URLs interpolating
the branch and the commit hash. -/
def downloadPhase (commit branch : String) : List Event :=
  [Event.msg "====Downloading native binaries from CI===="]
  ++ retrieveEvents
      (nightlyBucket ++ "/" ++ branch ++ "/libxgboost4j/xgboost4j_"
        ++ commit ++ ".dll")
      "xgboost4j/src/main/resources/lib/windows/x86_64/xgboost4j.dll"
  ++ retrieveEvents
      (nightlyBucket ++ "/" ++ branch
        ++ "/libxgboost4j/libxgboost4j_linux_x86_64_" ++ commit ++ ".so")
      "xgboost4j/src/main/resources/lib/linux/x86_64/libxgboost4j.so"
  ++ retrieveEvents
      (nightlyBucket ++ "/" ++ branch
        ++ "/libxgboost4j/libxgboost4j_linux_arm64_" ++ commit ++ ".so")
      "xgboost4j/src/main/resources/lib/linux/aarch64/libxgboost4j.so"
  ++ retrieveEvents
      (nightlyBucket ++ "/" ++ branch ++ "/libxgboost4j/libxgboost4j_"
        ++ commit ++ ".dylib")
      "xgboost4j/src/main/resources/lib/macos/x86_64/libxgboost4j.dylib"
  ++ retrieveEvents
      (nightlyBucket ++ "/" ++ branch ++ "/libxgboost4j/libxgboost4j_m1_"
        ++ commit ++ ".dylib")
      "xgboost4j/src/main/resources/lib/macos/aarch64/libxgboost4j.dylib"

/-- Archive phase trace: download the published GPU jar into the temporary
directory, `os.mkdir` the extraction directory, extract, copy the binary. -/
def archiveEvents (version tempdir : String) : List Event :=
  retrieveEvents
    (mavenRepoUrl ++ "/xgboost4j-gpu_2.12/" ++ version
      ++ "/xgboost4j-gpu_2.12-" ++ version ++ ".jar")
    (pjoin tempdir "xgboost4j-gpu_2.12.jar")
  ++ [Event.eff (Action.mkdirA (pjoin tempdir "xgboost4j-gpu"))]
  ++ [Event.eff (Action.extractA (pjoin tempdir "xgboost4j-gpu_2.12.jar")
      (pjoin tempdir "xgboost4j-gpu"))]
  ++ cpEvents
      (pjoin (pjoin (pjoin (pjoin (pjoin tempdir "xgboost4j-gpu") "lib")
        "linux") "x86_64") "libxgboost4j.so")
      "xgboost4j-gpu/src/main/resources/lib/linux/x86_64/libxgboost4j.so"

/-- The printed operator runbook at the end of `main`. -/
def nextStepsEvents : List Event :=
  [Event.msg "====Next Steps====",
   Event.msg "1. Gain upload right to Maven Central repo.",
   Event.msg "1-1. Sign up for a JIRA account at Sonatype: ",
   Event.msg ("1-2. File a JIRA ticket: "
     ++ "https://issues.sonatype.org/secure/CreateIssue.jspa?issuetype=21&pid=10134. Example: "
     ++ "https://issues.sonatype.org/browse/OSSRH-67724"),
   Event.msg ("2. Store the Sonatype credentials in .m2/settings.xml. See insturctions in "
     ++ "https://central.sonatype.org/publish/publish-maven/"),
   Event.msg ("3. Now on a Linux machine, run the following to build Scala 2.12 artifacts. "
     ++ "Make sure to use an Internet connection with fast upload speed:"),
   Event.msg ("   # Skip native build, since we have all needed native binaries from CI\n"
     ++ "   GPG_TTY=$(tty) mvn deploy -Prelease -DskipTests -Dskip.native.build=true"),
   Event.msg ("4. Log into https://oss.sonatype.org/. On the left menu panel, click Staging "
     ++ "Repositories. Visit the URL https://oss.sonatype.org/content/repositories/mldmlc-xxxx "
     ++ "to inspect the staged JAR files. Finally, press Release button to publish the "
     ++ "artifacts to the Maven Central repository. The top-level metapackage should be "
     ++ "named xgboost-jvm_2.12."),
   Event.msg ("5. Remove the Scala 2.12 artifacts and build Scala 2.13 artifacts:\n"
     ++ "   python ops/script/change_scala_version.py --scala-version 2.13 --purge-artifacts\n"
     ++ "   GPG_TTY=$(tty) mvn deploy -Prelease -DskipTests -Dskip.native.build=true"),
   Event.msg ("6. Go to https://oss.sonatype.org/ to release the Scala 2.13 artifacts. "
     ++ "The top-level metapackage should be named xgboost-jvm_2.13.")]

/-- Full trace of `main` after argument parsing and git-metadata resolution,
ordered as in the source.  `version`, `commit` and `branch` come from the
release context; `pyexe` is `sys.executable`; `agaricus` and `machine` are
the `glob` results; `tempdir` the created temporary directory; `cwd0` and
`cwd1` the working directories restored by the two `cd` scopes. -/
def mainEvents (version commit branch pyexe tempdir cwd0 cwd1 : String)
    (agaricus machine : List String) : List Event :=
  [Event.msg ("Using commit " ++ commit ++ " of branch " ++ branch)]
  ++ cdEnterEvents "jvm-packages/"
  ++ trackerPhase
  ++ testResPhase pyexe cwd1 agaricus machine
  ++ mkdirPhase
  ++ downloadPhase commit branch
  ++ [Event.eff (Action.mkdtempA tempdir)]
  ++ archiveEvents version tempdir
  ++ [Event.eff (Action.rmtreeA tempdir)]
  ++ cdExitEvents cwd0
  ++ nextStepsEvents

/-- Paths of the `mkdir -p` actions of a trace. -/
def mkdirpOf : Event → Option String
  | Event.eff (Action.mkdirpA p) => some p
  | _ => none

def mkdirpPaths (tr : List Event) : List String := tr.filterMap mkdirpOf

/-- `(url, filename)` pairs of the download actions of a trace. -/
def downloadOf : Event → Option (String × String)
  | Event.eff (Action.downloadA u f) => some (u, f)
  | _ => none

def downloadsOf (tr : List Event) : List (String × String) :=
  tr.filterMap downloadOf

/-- Does `pat` occur as a contiguous sublist of `s`? -/
def listHasInfix (pat : List Char) : List Char → Bool
  | [] => pat.isEmpty
  | c :: rest => pat.isPrefixOf (c :: rest) || listHasInfix pat rest

/-- Substring test used to state the URL claims. -/
def containsSub (s pat : String) : Bool := listHasInfix pat.data s.data

/-! ## Narration order (C5) -/

/-- The shell line announcing an action, for the four utilities that print
before acting (`cp`, `maybe_makedirs`, `run`, `retrieve`). -/
def shellLine : Action → Option String
  | Action.copyA s t => some ("cp " ++ s ++ " " ++ t)
  | Action.mkdirpA p => some ("mkdir -p " ++ p)
  | Action.runA c => some c
  | Action.downloadA u f => some (u ++ " -> " ++ f)
  | _ => none

/-- The claimed narration map: as `shellLine`, but additionally requiring the
`cd` working-directory change to be announced by its `cd path` line. -/
def shellLineCd : Action → Option String
  | Action.copyA s t => some ("cp " ++ s ++ " " ++ t)
  | Action.mkdirpA p => some ("mkdir -p " ++ p)
  | Action.runA c => some c
  | Action.downloadA u f => some (u ++ " -> " ++ f)
  | Action.chdirA p => some ("cd " ++ p)
  | _ => none

/-- Every narratable action of the trace is immediately preceded by its
narration line (`prev` is the event just before the current head). -/
def precededOk (narr : Action → Option String) :
    Option Event → List Event → Bool
  | _, [] => true
  | prev, e :: rest =>
    (match e with
     | Event.eff a =>
       (match narr a with
        | some m => prev == some (Event.msg m)
        | none => true)
     | Event.msg _ => true) && precededOk narr (some e) rest

/-- Representative `glob` results for a concrete run. -/
def agaricusSample : List String :=
  ["../demo/data/agaricus.txt.test", "../demo/data/agaricus.txt.train"]

def machineSample : List String :=
  ["../demo/CLI/regression/machine.txt.test",
   "../demo/CLI/regression/machine.txt.train"]

/-- A fully concrete run of the orchestrator trace. -/
def mainSample : List Event :=
  mainEvents "1.7.0" "abc123" "release_1.7.0" "python3" "/tmp/t" "/w"
    "/w/jvm-packages" agaricusSample machineSample

/-! ## Expected directories and downloads (C1) -/

/-- The six native-binary destination directories, in creation order: the
five standard platform targets and the accelerated one. -/
def libDirList : List String :=
  ["xgboost4j/src/main/resources/lib/linux/x86_64",
   "xgboost4j/src/main/resources/lib/linux/aarch64",
   "xgboost4j/src/main/resources/lib/windows/x86_64",
   "xgboost4j/src/main/resources/lib/macos/x86_64",
   "xgboost4j/src/main/resources/lib/macos/aarch64",
   "xgboost4j-gpu/src/main/resources/lib/linux/x86_64"]

/-- The five nightly-bucket download requests expected for commit `abc123`
on branch `release_1.7.0`. -/
def expectedNightly : List (String × String) :=
  [("https://s3-us-west-2.amazonaws.com/xgboost-nightly-builds/release_1.7.0/libxgboost4j/xgboost4j_abc123.dll",
    "xgboost4j/src/main/resources/lib/windows/x86_64/xgboost4j.dll"),
   ("https://s3-us-west-2.amazonaws.com/xgboost-nightly-builds/release_1.7.0/libxgboost4j/libxgboost4j_linux_x86_64_abc123.so",
    "xgboost4j/src/main/resources/lib/linux/x86_64/libxgboost4j.so"),
   ("https://s3-us-west-2.amazonaws.com/xgboost-nightly-builds/release_1.7.0/libxgboost4j/libxgboost4j_linux_arm64_abc123.so",
    "xgboost4j/src/main/resources/lib/linux/aarch64/libxgboost4j.so"),
   ("https://s3-us-west-2.amazonaws.com/xgboost-nightly-builds/release_1.7.0/libxgboost4j/libxgboost4j_abc123.dylib",
    "xgboost4j/src/main/resources/lib/macos/x86_64/libxgboost4j.dylib"),
   ("https://s3-us-west-2.amazonaws.com/xgboost-nightly-builds/release_1.7.0/libxgboost4j/libxgboost4j_m1_abc123.dylib",
    "xgboost4j/src/main/resources/lib/macos/aarch64/libxgboost4j.dylib")]

/-- The published-archive download for version `1.7.0` into the temporary
directory `/tmp/t`. -/
def expectedJarDl : String × String :=
  ("https://s3-us-west-2.amazonaws.com/xgboost-maven-repo/release/ml/dmlc/xgboost4j-gpu_2.12/1.7.0/xgboost4j-gpu_2.12-1.7.0.jar",
   "/tmp/t/xgboost4j-gpu_2.12.jar")


/-- Slash-separated concatenation of components. -/
def interSlash : List (List Char) → List Char
  | [] => []
  | [x] => x
  | x :: y :: rest => x ++ '/' :: interSlash (y :: rest)

/-! ## Claims about the effectful utilities -/

/-- Fixture filesystem: a directory `d`, a plain file `f`, and a path `z` on
which directory creation is denied. -/
def fsFix : FileSystem := ⟨["d"], [("f", "x")], ["z"]⟩

/-- Fixture filesystem for the copy claims. -/
def fsCopy : FileSystem := ⟨["d"], [("a", "hello")], []⟩

/-- Claim C2 (counterexample): with a plain file occupying the path,
`maybe_makedirs` does not fail — `os.makedirs` raises EEXIST for the existing
file and the handler swallows exactly that errno, so the call returns
successfully and unchanged. -/
theorem c2_counterexample :
    maybe_makedirs ⟨[], [("f", "x")], []⟩ "f" =
      Except.ok ⟨[], [("f", "x")], []⟩ ∧
    isError (maybe_makedirs ⟨[], [("f", "x")], []⟩ "f") = false := by
  decide

/-- Claim C2 (amended): `maybe_makedirs` succeeds silently and leaves the
state unchanged when a plain file occupies the path (the EEXIST raised for
the existing file is swallowed); it succeeds silently when a directory
already exists; and any creation failure with an errno other than EEXIST is
propagated to the caller. -/
theorem c2_maybe_makedirs (fs : FileSystem) (pf pd pe : String) (e : Nat)
    (hf : containsFile fs (normpath pf) = true)
    (hd : normpath pd ∈ fs.dirs)
    (he : os_makedirs fs (normpath pe) = Except.error e)
    (hne : e ≠ EEXIST) :
    maybe_makedirs fs pf = Except.ok fs ∧
    maybe_makedirs fs pd = Except.ok fs ∧
    maybe_makedirs fs pe = Except.error e := by
  refine ⟨?_, ?_, ?_⟩
  · unfold maybe_makedirs os_makedirs
    rw [if_pos (by simp [hf])]
    rfl
  · unfold maybe_makedirs os_makedirs
    rw [if_pos (by simp [hd])]
    rfl
  · unfold maybe_makedirs
    rw [he]
    show (if e = EEXIST then Except.ok fs else Except.error e) = Except.error e
    rw [if_neg hne]

/-- Witness for C2 at a concrete filesystem. -/
theorem c2_maybe_makedirs_witness :
    maybe_makedirs fsFix "f" = Except.ok fsFix ∧
    maybe_makedirs fsFix "d" = Except.ok fsFix ∧
    maybe_makedirs fsFix "z" = Except.error EACCES :=
  c2_maybe_makedirs fsFix "f" "d" "z" EACCES (by decide) (by decide)
    (by decide) (by decide)

/-- Claim C6: the `cd` scope guard restores the original working directory on
every exit path of its body — also when the body reports an exception, since
the restoration does not inspect the body's outcome. -/
theorem c6_cd_restores_cwd (path : String)
    (body : ProcState → ProcState × Option Nat) (s : ProcState) :
    ((cd path body s).1).cwd = s.cwd := by
  unfold cd
  rcases body { cwd := chdirResolve s.cwd (normpath path),
                out := s.out ++ ["cd " ++ normpath path] } with ⟨s2, r⟩
  rfl

/-- Claim C7: every path at or below the temporary extraction directory is
gone after the archive phase, whatever the outcome of the download, the
mkdir, the extraction and the copy. -/
theorem c7_tempdir_removed (tempdir : String) (dlOk mkOk exOk cpOk : Bool)
    (st : ArchState) (p : String) (hp : underDir tempdir p = true) :
    p ∉ ((gpuArchivePhase tempdir dlOk mkOk exOk cpOk st).1).paths := by
  intro hmem
  unfold gpuArchivePhase tempDirScope at hmem
  rcases gpuArchiveBody tempdir dlOk mkOk exOk cpOk
      { paths := tempdir :: st.paths } with ⟨st2, r⟩
  simp only [removeTree, List.mem_filter] at hmem
  rw [hp] at hmem
  simp at hmem

/-- Witness for C7: the extraction directory is absent after a fully
successful archive phase. -/
theorem c7_tempdir_removed_witness :
    underDir "/tmp/t" "/tmp/t/xgboost4j-gpu" = true ∧
    "/tmp/t/xgboost4j-gpu" ∉
      ((gpuArchivePhase "/tmp/t" true true true true ⟨["keep"]⟩).1).paths :=
  ⟨by decide,
   c7_tempdir_removed "/tmp/t" true true true true ⟨["keep"]⟩
     "/tmp/t/xgboost4j-gpu" (by decide)⟩

/-- Claim C8: copying from a nonexistent source fails with ENOENT (and hence
returns no new filesystem, so no destination file is created), and after a
successful copy the content at the written destination equals the source's
content byte for byte. -/
theorem c8_cp (fs : FileSystem) (source target : String) :
    (normpath source ∉ fs.dirs →
      lookupFile fs (normpath source) = none →
      cp fs source target = Except.error ENOENT) ∧
    (∀ fs', cp fs source target = Except.ok fs' →
      lookupFile fs' (shutilTarget fs (normpath source) (normpath target)) =
        lookupFile fs (normpath source)) := by
  constructor
  · intro h1 h2
    unfold cp shutil_copy
    rw [if_neg (by simp [h1]), h2]
  · intro fs' h
    unfold cp shutil_copy at h
    rcases hd : fs.dirs.contains (normpath source) with _ | _ <;> rw [hd] at h
    · simp only [Bool.false_eq_true, if_false] at h
      rcases hl : lookupFile fs (normpath source) with _ | content <;>
        rw [hl] at h
      · simp at h
      · by_cases ht : shutilTarget fs (normpath source) (normpath target) =
            normpath source
        · simp [ht] at h
        · simp only [ht, if_false] at h
          cases h
          simp [lookupFile, setFile, List.find?]
    · simp at h

/-- Witness for C8: a failing copy from a missing source and a successful
copy into a directory. -/
theorem c8_cp_witness :
    cp fsCopy "missing" "d" = Except.error ENOENT ∧
    lookupFile (setFile fsCopy "d/a" "hello")
        (shutilTarget fsCopy (normpath "a") (normpath "d")) =
      lookupFile fsCopy (normpath "a") :=
  ⟨(c8_cp fsCopy "missing" "d").1 (by decide) (by decide),
   (c8_cp fsCopy "a" "d").2 (setFile fsCopy "d/a" "hello") (by decide)⟩

/-! ## Lemmas about the branch-name search -/

theorem tryMatch_nil : tryMatch [] = none := by decide

/-- A successful anchored match exhibits the decomposition of the
specification predicate. -/
theorem hasMatch_of_tryMatch (s m : List Char) (h : tryMatch s = some m) :
    HasReleaseMatch s := by
  unfold tryMatch at h
  by_cases hp : relPat.isPrefixOf s = true
  · rw [if_pos hp] at h
    rcases List.isPrefixOf_iff_prefix.mp hp with ⟨t, ht⟩
    have hdrop : s.drop relPat.length = t := by rw [← ht, List.drop_left]
    rw [hdrop] at h
    by_cases hv : t.takeWhile isVerChar = []
    · rw [if_pos hv] at h; cases h
    · refine ⟨[], t.takeWhile isVerChar, t.dropWhile isVerChar, ?_, hv, ?_⟩
      · rw [List.nil_append, ← ht, List.append_assoc,
          List.takeWhile_append_dropWhile]
      · intro c hc
        exact List.mem_takeWhile_imp hc
  · rw [if_neg hp] at h; cases h

/-- Soundness of the scan: when `searchRelease` returns a match, the text
contains a matching substring. -/
theorem hasMatch_of_search (s : List Char) :
    ∀ m, searchRelease s = some m → HasReleaseMatch s := by
  induction s with
  | nil => intro m h; cases h
  | cons c rest ih =>
    intro m h
    unfold searchRelease at h
    rcases ht : tryMatch (c :: rest) with _ | m0 <;> rw [ht] at h
    · rcases ih m h with ⟨pre, ver, post, hs, hv, hall⟩
      exact ⟨c :: pre, ver, post, by simp [hs], hv, hall⟩
    · cases h
      exact hasMatch_of_tryMatch _ _ ht

/-- The anchored matcher succeeds on `release_` followed by a nonempty run of
digits and dots. -/
theorem tryMatch_concat (ver post : List Char) (hv : ver ≠ [])
    (hall : ∀ c ∈ ver, isVerChar c = true) :
    ∃ m, tryMatch (relPat ++ (ver ++ post)) = some m := by
  unfold tryMatch
  rw [if_pos (List.isPrefixOf_iff_prefix.mpr ⟨ver ++ post, rfl⟩),
    List.drop_left]
  rcases ver with _ | ⟨v, vt⟩
  · exact absurd rfl hv
  · rw [List.cons_append, List.takeWhile_cons_of_pos (hall v (List.mem_cons_self v vt))]
    exact ⟨_, by rw [if_neg (by simp)]⟩

/-- If the pattern matches at any position, the scan succeeds. -/
theorem search_of_tryMatch (s : List Char) :
    ∀ (i : Nat) (m : List Char), tryMatch (s.drop i) = some m →
      ∃ m', searchRelease s = some m' := by
  induction s with
  | nil =>
    intro i m h
    rw [List.drop_nil, tryMatch_nil] at h
    cases h
  | cons c rest ih =>
    intro i m h
    rcases ht : tryMatch (c :: rest) with _ | m0
    · cases i with
      | zero => rw [List.drop_zero, ht] at h; cases h
      | succ j =>
        rw [List.drop_succ_cons] at h
        rcases ih j m h with ⟨m', hm'⟩
        exact ⟨m', by rw [searchRelease, ht, hm']⟩
    · exact ⟨m0, by rw [searchRelease, ht]⟩

/-- Completeness: a text containing a matching substring makes the scan
succeed. -/
theorem search_of_hasMatch (s : List Char) (h : HasReleaseMatch s) :
    ∃ m, searchRelease s = some m := by
  rcases h with ⟨pre, ver, post, hs, hv, hall⟩
  rcases tryMatch_concat ver post hv hall with ⟨m, hm⟩
  refine search_of_tryMatch s pre.length m ?_
  rw [hs, List.append_assoc, List.append_assoc, List.drop_left]
  exact hm

/-- The scan returns the match of the leftmost matching position. -/
theorem search_leftmost (s : List Char) :
    ∀ m, searchRelease s = some m →
      ∃ i, tryMatch (s.drop i) = some m ∧
        ∀ j, j < i → tryMatch (s.drop j) = none := by
  induction s with
  | nil => intro m h; cases h
  | cons c rest ih =>
    intro m h
    unfold searchRelease at h
    rcases ht : tryMatch (c :: rest) with _ | m0 <;> rw [ht] at h
    · rcases ih m h with ⟨i, h1, h2⟩
      refine ⟨i + 1, by rwa [List.drop_succ_cons], ?_⟩
      intro j hj
      cases j with
      | zero => rwa [List.drop_zero]
      | succ k => rw [List.drop_succ_cons]; exact h2 k (Nat.lt_of_succ_lt_succ hj)
    · cases h
      exact ⟨0, by rwa [List.drop_zero], fun j hj => absurd hj (Nat.not_lt_zero j)⟩

/-! ## Claims about the branch-name resolver -/

/-- Claim C3: on the decoration `(tag: v1.7.0, release_1.7.0)` the resolver
returns exactly `release_1.7.0`, and on any text with no substring matching
`release_[0-9.]+` it raises the descriptive `ValueError` instead of
returning anything. -/
theorem c3_branch_resolver :
    get_current_git_branch "(tag: v1.7.0, release_1.7.0)" =
      Except.ok "release_1.7.0" ∧
    ∀ s : String, ¬ HasReleaseMatch s.data →
      get_current_git_branch s =
        Except.error "Expected branch name of form release_xxx" := by
  refine ⟨by decide, ?_⟩
  intro s hno
  rcases hsr : searchRelease s.data with _ | m
  · rw [get_current_git_branch, hsr]
  · exact absurd (hasMatch_of_search s.data m hsr) hno

/-- Witness for C3: a decoration with no `release_` match at all. -/
theorem c3_branch_resolver_witness :
    ¬ HasReleaseMatch ("HEAD, origin/main").data ∧
    get_current_git_branch "HEAD, origin/main" =
      Except.error "Expected branch name of form release_xxx" := by
  have hno : ¬ HasReleaseMatch ("HEAD, origin/main").data := by
    intro h
    rcases search_of_hasMatch _ h with ⟨m, hm⟩
    rw [show searchRelease ("HEAD, origin/main").data = none from by decide]
      at hm
    cases hm
  exact ⟨hno, c3_branch_resolver.2 "HEAD, origin/main" hno⟩

/-- Claim C10: whenever the pattern matches anywhere, the resolver returns
the match at the leftmost matching position (no position before it matches);
and the accepted pattern is any nonempty run of digits and dots, so
`release_1..` is returned as a branch name, and of two versions the leftmost
is returned. -/
theorem c10_leftmost_greedy :
    (∀ (s : String) (i : Nat) (m : List Char),
      tryMatch (s.data.drop i) = some m →
      ∃ j m', tryMatch (s.data.drop j) = some m' ∧
        (∀ k, k < j → tryMatch (s.data.drop k) = none) ∧ j ≤ i ∧
        get_current_git_branch s = Except.ok (String.mk m')) ∧
    get_current_git_branch "a release_1.0, release_2.0" =
      Except.ok "release_1.0" ∧
    get_current_git_branch "(tag: release_1..)" = Except.ok "release_1.." := by
  refine ⟨?_, by decide, by decide⟩
  intro s i m h
  rcases search_of_tryMatch s.data i m h with ⟨m', hm'⟩
  rcases search_leftmost s.data m' hm' with ⟨j, hj, hnone⟩
  refine ⟨j, m', hj, hnone, ?_, by rw [get_current_git_branch, hm']⟩
  by_contra hle
  rw [hnone i (Nat.lt_of_not_le hle)] at h
  cases h

/-- Witness for C10: the second occurrence in
`a release_1.0, release_2.0` matches at position 15, and the resolver still
returns the leftmost match. -/
theorem c10_leftmost_greedy_witness :
    tryMatch (("a release_1.0, release_2.0").data.drop 15) =
      some ("release_2.0").data ∧
    ∃ j m', tryMatch (("a release_1.0, release_2.0").data.drop j) = some m' ∧
      (∀ k, k < j →
        tryMatch (("a release_1.0, release_2.0").data.drop k) = none) ∧
      j ≤ 15 ∧
      get_current_git_branch "a release_1.0, release_2.0" =
        Except.ok (String.mk m') :=
  ⟨by decide,
   c10_leftmost_greedy.1 "a release_1.0, release_2.0" 15 ("release_2.0").data
     (by decide)⟩

/-! ### Trace projections distribute over the phases -/

theorem mkdirpPaths_append (a b : List Event) :
    mkdirpPaths (a ++ b) = mkdirpPaths a ++ mkdirpPaths b :=
  List.filterMap_append a b mkdirpOf

theorem downloadsOf_append (a b : List Event) :
    downloadsOf (a ++ b) = downloadsOf a ++ downloadsOf b :=
  List.filterMap_append a b downloadOf

theorem mkdirpPaths_cpEvents (s t : String) :
    mkdirpPaths (cpEvents s t) = [] := rfl

theorem downloadsOf_cpEvents (s t : String) :
    downloadsOf (cpEvents s t) = [] := rfl

theorem mkdirpPaths_cpPairChunk (files : List String) (d1 d2 : String) :
    mkdirpPaths (cpPairChunk files d1 d2) = [] := by
  induction files with
  | nil => rfl
  | cons f fs ih =>
    rw [cpPairChunk, mkdirpPaths_append, mkdirpPaths_append,
      mkdirpPaths_cpEvents, mkdirpPaths_cpEvents, ih]
    rfl

theorem mkdirpPaths_cpChunk (files : List String) (d : String) :
    mkdirpPaths (cpChunk files d) = [] := by
  induction files with
  | nil => rfl
  | cons f fs ih =>
    rw [cpChunk, mkdirpPaths_append, mkdirpPaths_cpEvents, ih]
    rfl

theorem downloadsOf_cpPairChunk (files : List String) (d1 d2 : String) :
    downloadsOf (cpPairChunk files d1 d2) = [] := by
  induction files with
  | nil => rfl
  | cons f fs ih =>
    rw [cpPairChunk, downloadsOf_append, downloadsOf_append,
      downloadsOf_cpEvents, downloadsOf_cpEvents, ih]
    rfl

theorem downloadsOf_cpChunk (files : List String) (d : String) :
    downloadsOf (cpChunk files d) = [] := by
  induction files with
  | nil => rfl
  | cons f fs ih =>
    rw [cpChunk, downloadsOf_append, downloadsOf_cpEvents, ih]
    rfl

theorem mkdirpPaths_msg (m : String) (tr : List Event) :
    mkdirpPaths (Event.msg m :: tr) = mkdirpPaths tr := rfl

theorem downloadsOf_msg (m : String) (tr : List Event) :
    downloadsOf (Event.msg m :: tr) = downloadsOf tr := rfl

theorem mkdirpPaths_runEvents (c : String) :
    mkdirpPaths (runEvents c) = [] := rfl

theorem downloadsOf_runEvents (c : String) :
    downloadsOf (runEvents c) = [] := rfl

theorem mkdirpPaths_cdEnter (p : String) :
    mkdirpPaths (cdEnterEvents p) = [] := rfl

theorem downloadsOf_cdEnter (p : String) :
    downloadsOf (cdEnterEvents p) = [] := rfl

theorem mkdirpPaths_cdExit (p : String) :
    mkdirpPaths (cdExitEvents p) = [] := rfl

theorem downloadsOf_cdExit (p : String) :
    downloadsOf (cdExitEvents p) = [] := rfl

theorem mkdirpPaths_makedirs (p : String) :
    mkdirpPaths (makedirsEvents p) = [normpath p] := rfl

theorem downloadsOf_makedirs (p : String) :
    downloadsOf (makedirsEvents p) = [] := rfl

theorem mkdirpPaths_retrieve (u f : String) :
    mkdirpPaths (retrieveEvents u f) = [] := rfl

theorem downloadsOf_retrieve (u f : String) :
    downloadsOf (retrieveEvents u f) = [(u, f)] := rfl

theorem mkdirpPaths_nil : mkdirpPaths [] = [] := rfl

theorem downloadsOf_nil : downloadsOf [] = [] := rfl

theorem mkdirpPaths_mkdtemp (p : String) (tr : List Event) :
    mkdirpPaths (Event.eff (Action.mkdtempA p) :: tr) = mkdirpPaths tr := rfl

theorem mkdirpPaths_mkdirA (p : String) (tr : List Event) :
    mkdirpPaths (Event.eff (Action.mkdirA p) :: tr) = mkdirpPaths tr := rfl

theorem mkdirpPaths_extractA (z d : String) (tr : List Event) :
    mkdirpPaths (Event.eff (Action.extractA z d) :: tr) = mkdirpPaths tr := rfl

theorem mkdirpPaths_rmtree (p : String) (tr : List Event) :
    mkdirpPaths (Event.eff (Action.rmtreeA p) :: tr) = mkdirpPaths tr := rfl

theorem downloadsOf_mkdtemp (p : String) (tr : List Event) :
    downloadsOf (Event.eff (Action.mkdtempA p) :: tr) = downloadsOf tr := rfl

theorem downloadsOf_mkdirA (p : String) (tr : List Event) :
    downloadsOf (Event.eff (Action.mkdirA p) :: tr) = downloadsOf tr := rfl

theorem downloadsOf_extractA (z d : String) (tr : List Event) :
    downloadsOf (Event.eff (Action.extractA z d) :: tr) = downloadsOf tr := rfl

theorem downloadsOf_rmtree (p : String) (tr : List Event) :
    downloadsOf (Event.eff (Action.rmtreeA p) :: tr) = downloadsOf tr := rfl

/-- `mkdir -p` actions of a full run: the four test-resource directories in
order, followed by the six native-binary directories. -/
theorem mkdirpPaths_main (py tempdir c0 c1 : String) (ag mc : List String) :
    mkdirpPaths
        (mainEvents "1.7.0" "abc123" "release_1.7.0" py tempdir c0 c1 ag mc) =
      ["xgboost4j-gpu/src/test/resources",
       "xgboost4j-spark-gpu/src/test/resources",
       "xgboost4j/src/test/resources",
       "xgboost4j-spark/src/test/resources"] ++ libDirList := by
  simp only [mainEvents, trackerPhase, testResPhase, mkdirPhase, downloadPhase,
    archiveEvents, nextStepsEvents, mkdirpPaths_append, mkdirpPaths_cpEvents,
    mkdirpPaths_cpPairChunk, mkdirpPaths_cpChunk, mkdirpPaths_runEvents,
    mkdirpPaths_cdEnter, mkdirpPaths_cdExit, mkdirpPaths_makedirs,
    mkdirpPaths_retrieve, mkdirpPaths_msg, mkdirpPaths_nil, mkdirpPaths_mkdtemp,
    mkdirpPaths_mkdirA, mkdirpPaths_extractA, mkdirpPaths_rmtree,
    List.append_assoc, List.nil_append, List.append_nil]
  decide

/-- Download actions of a full run with the temporary directory at `/tmp/t`:
the five nightly downloads followed by the published-archive download. -/
theorem downloadsOf_main (py c0 c1 : String) (ag mc : List String) :
    downloadsOf
        (mainEvents "1.7.0" "abc123" "release_1.7.0" py "/tmp/t" c0 c1 ag mc) =
      expectedNightly ++ [expectedJarDl] := by
  simp only [mainEvents, trackerPhase, testResPhase, mkdirPhase, downloadPhase,
    archiveEvents, nextStepsEvents, downloadsOf_append, downloadsOf_cpEvents,
    downloadsOf_cpPairChunk, downloadsOf_cpChunk, downloadsOf_runEvents,
    downloadsOf_cdEnter, downloadsOf_cdExit, downloadsOf_makedirs,
    downloadsOf_retrieve, downloadsOf_msg, downloadsOf_nil, downloadsOf_mkdtemp,
    downloadsOf_mkdirA, downloadsOf_extractA, downloadsOf_rmtree,
    List.append_assoc, List.nil_append, List.append_nil]
  decide

/-! ## Claims C5 and C1 -/

/-- Claim C5 (counterexample): taking "the equivalent shell command is
printed before the action executes" to cover the `cd` working-directory
change as well, the orchestrator trace violates it: the `os.chdir` into
`jvm-packages/` executes first and the `cd jvm-packages/` line is only
printed afterwards, as the first three events of a concrete run show. -/
theorem c5_counterexample :
    precededOk shellLineCd none mainSample = false ∧
    mainSample.take 3 =
      [Event.msg "Using commit abc123 of branch release_1.7.0",
       Event.eff (Action.chdirA "jvm-packages/"),
       Event.msg "cd jvm-packages/"] := by
  constructor
  · decide
  · decide

set_option maxRecDepth 8000 in
/-- Claim C5 (amended): in the orchestrator trace every copy, recursive
directory creation, subprocess run and download is immediately preceded by
its equivalent shell line, while the `cd` directory change is performed
first and its `cd` line printed immediately afterwards (and the restoring
`chdir` of the scope exit is not narrated at all). -/
theorem c5_narration :
    precededOk shellLine none mainSample = true ∧
    mainSample.take 3 =
      [Event.msg "Using commit abc123 of branch release_1.7.0",
       Event.eff (Action.chdirA "jvm-packages/"),
       Event.msg "cd jvm-packages/"] := by
  constructor
  · decide
  · decide

/-- Claim C1 (counterexample): in a full concrete run only five of the six
download requests have URLs containing both `abc123` and `release_1.7.0` —
the sixth, the published-archive download, interpolates the version instead
— so the count of such requests is 5, not 6. -/
theorem c1_counterexample :
    ((downloadsOf mainSample).filter
        (fun pr => containsSub pr.1 "abc123" &&
          containsSub pr.1 "release_1.7.0")).length = 5 ∧
    ¬ ((downloadsOf mainSample).filter
        (fun pr => containsSub pr.1 "abc123" &&
          containsSub pr.1 "release_1.7.0")).length = 6 ∧
    (downloadsOf mainSample).length = 6 := by
  refine ⟨by decide, by decide, by decide⟩

/-- Claim C1 (amended): a run with version `1.7.0`, commit `abc123`, branch
`release_1.7.0` and temporary directory `/tmp/t` creates exactly the five
standard-platform native-binary destination directories and the one
accelerated-platform directory; it issues exactly six download requests, of
which exactly the five nightly ones have URLs containing `abc123` and
`release_1.7.0` in the expected positions; and it performs the archive
download plus the extract and the copy of the accelerated Linux x86_64
binary. -/
theorem c1_orchestrator (py c0 c1 : String) (ag mc : List String) :
    (mkdirpPaths
        (mainEvents "1.7.0" "abc123" "release_1.7.0" py "/tmp/t" c0 c1 ag mc)).filter
        (fun p => containsSub p "/resources/lib/") = libDirList ∧
    downloadsOf
        (mainEvents "1.7.0" "abc123" "release_1.7.0" py "/tmp/t" c0 c1 ag mc) =
      expectedNightly ++ [expectedJarDl] ∧
    (downloadsOf
        (mainEvents "1.7.0" "abc123" "release_1.7.0" py "/tmp/t" c0 c1 ag mc)).length = 6 ∧
    (downloadsOf
        (mainEvents "1.7.0" "abc123" "release_1.7.0" py "/tmp/t" c0 c1 ag mc)).filter
        (fun pr => containsSub pr.1 "abc123" &&
          containsSub pr.1 "release_1.7.0") = expectedNightly ∧
    Event.eff (Action.extractA "/tmp/t/xgboost4j-gpu_2.12.jar"
        "/tmp/t/xgboost4j-gpu") ∈
      mainEvents "1.7.0" "abc123" "release_1.7.0" py "/tmp/t" c0 c1 ag mc ∧
    Event.eff (Action.copyA "/tmp/t/xgboost4j-gpu/lib/linux/x86_64/libxgboost4j.so"
        "xgboost4j-gpu/src/main/resources/lib/linux/x86_64/libxgboost4j.so") ∈
      mainEvents "1.7.0" "abc123" "release_1.7.0" py "/tmp/t" c0 c1 ag mc := by
  have hex : Event.eff (Action.extractA "/tmp/t/xgboost4j-gpu_2.12.jar"
      "/tmp/t/xgboost4j-gpu") ∈ archiveEvents "1.7.0" "/tmp/t" := by decide
  have hcp : Event.eff
      (Action.copyA "/tmp/t/xgboost4j-gpu/lib/linux/x86_64/libxgboost4j.so"
        "xgboost4j-gpu/src/main/resources/lib/linux/x86_64/libxgboost4j.so") ∈
      archiveEvents "1.7.0" "/tmp/t" := by decide
  refine ⟨?_, downloadsOf_main py c0 c1 ag mc, ?_, ?_, ?_, ?_⟩
  · rw [mkdirpPaths_main]
    decide
  · rw [downloadsOf_main]
    decide
  · rw [downloadsOf_main]
    decide
  · simp only [mainEvents]
    exact List.mem_append_left _ (List.mem_append_left _
      (List.mem_append_left _ (List.mem_append_right _ hex)))
  · simp only [mainEvents]
    exact List.mem_append_left _ (List.mem_append_left _
      (List.mem_append_left _ (List.mem_append_right _ hcp)))

/-! ## Structure of normalized paths (C4, C9)

`joinParts` of slash-free components is characterized as the slash-separated
concatenation of the nonempty components, with one trailing slash when the
last component is empty; `splitSlash` inverts that concatenation.  Idempotence
of `normpath` and the absence of interior empty components follow.
-/


theorem splitSlash_ne_nil (l : List Char) : splitSlash l ≠ [] := by
  cases l with
  | nil => simp [splitSlash]
  | cons c rest =>
    by_cases h : c = '/'
    · simp [splitSlash, h]
    · simp only [splitSlash, h, if_false]
      rcases splitSlash rest with _ | ⟨h0, t0⟩ <;> simp

theorem noslash_mem_splitSlash (l : List Char) :
    ∀ part ∈ splitSlash l, '/' ∉ part := by
  induction l with
  | nil =>
    intro part h
    simp [splitSlash] at h
    simp [h]
  | cons c rest ih =>
    intro part h
    by_cases hc : c = '/'
    · simp only [splitSlash, hc, if_true, List.mem_cons] at h
      rcases h with h | h
      · simp [h]
      · exact ih part h
    · simp only [splitSlash, hc, if_false] at h
      rcases hs : splitSlash rest with _ | ⟨h0, t0⟩ <;> rw [hs] at h
      · simp at h
        simp only [h, List.mem_singleton]
        exact fun hx => hc hx.symm
      · simp only [List.mem_cons] at h
        rcases h with h | h
        · subst h
          intro hmem
          rcases List.mem_cons.mp hmem with h | h
          · exact hc h.symm
          · exact ih h0 (hs ▸ List.mem_cons_self h0 t0) h
        · exact ih part (hs ▸ List.mem_cons_of_mem h0 h)

theorem interSlash_glue (x y : List Char) (l : List (List Char)) :
    interSlash ((x ++ '/' :: y) :: l) = x ++ '/' :: interSlash (y :: l) := by
  cases l with
  | nil => rfl
  | cons z zs => simp [interSlash, List.append_assoc]

theorem interSlash_concat_empty (l : List (List Char)) (h : l ≠ []) :
    interSlash (l ++ [[]]) = interSlash l ++ ['/'] := by
  induction l with
  | nil => exact absurd rfl h
  | cons x xs ih =>
    cases xs with
    | nil => rfl
    | cons y ys =>
      have : interSlash ((x :: y :: ys) ++ [[]]) =
          x ++ '/' :: interSlash ((y :: ys) ++ [[]]) := rfl
      rw [this, ih (by simp), interSlash]
      simp [List.append_assoc]

theorem joinStep_nil_left (h : List Char) : joinStep [] h = h := by
  unfold joinStep
  by_cases ha : isAbsL h = true
  · rw [if_pos ha]
  · rw [if_neg ha, if_pos (Or.inl rfl), List.nil_append]

theorem joinParts_nil_cons (parts : List (List Char)) :
    joinParts ([] :: parts) = joinParts parts := by
  cases parts with
  | nil => rfl
  | cons h t =>
    show List.foldl joinStep [] (h :: t) = List.foldl joinStep h t
    rw [List.foldl_cons, joinStep_nil_left]

/-- The join-loop invariant: folding `joinStep` over slash-free components,
starting from a nonempty accumulator not ending in a slash (without and with
a pending trailing slash). -/
theorem foldl_joinStep (t : List (List Char)) :
    ∀ (core : List Char), core ≠ [] →
      core.getLast? ≠ some '/' → (∀ x ∈ t, '/' ∉ x) →
      List.foldl joinStep core t =
        interSlash (core :: t.filter (fun x => !x.isEmpty)) ++
          (if t.getLast? = some ([] : List Char) then ['/'] else []) ∧
      List.foldl joinStep (core ++ ['/']) t =
        interSlash (core :: t.filter (fun x => !x.isEmpty)) ++
          (if t.getLast? = some ([] : List Char) ∨ t = [] then ['/'] else []) := by
  induction t with
  | nil =>
    intro core h1 h2 _
    constructor
    · simp [interSlash]
    · simp [interSlash]
  | cons b t' ih =>
    intro core h1 h2 hall
    have hall' : ∀ x ∈ t', '/' ∉ x :=
      fun x hx => hall x (List.mem_cons_of_mem b hx)
    by_cases hb : b = []
    · subst hb
      have hA : joinStep core [] = core ++ ['/'] := by
        unfold joinStep
        rw [if_neg (by simp [isAbsL]), if_neg (by simp [h1, h2])]
      have hB : joinStep (core ++ ['/']) [] = core ++ ['/'] := by
        unfold joinStep
        rw [if_neg (by simp [isAbsL]),
          if_pos (Or.inr (List.getLast?_concat core)), List.append_nil]
      have hrec := (ih core h1 h2 hall').2
      constructor
      · rw [List.foldl_cons, hA, hrec, List.filter_cons]
        simp only [List.isEmpty_nil, Bool.not_true, Bool.false_eq_true,
          if_false]
        cases t' with
        | nil => simp
        | cons z zs => simp [List.getLast?_cons_cons]
      · rw [List.foldl_cons, hB, hrec, List.filter_cons]
        simp only [List.isEmpty_nil, Bool.not_true, Bool.false_eq_true,
          if_false]
        cases t' with
        | nil => simp
        | cons z zs => simp [List.getLast?_cons_cons]
    · have hslash : '/' ∉ b := hall b (List.mem_cons_self b t')
      have habs : isAbsL b = false := by
        rcases b with _ | ⟨c, bs⟩
        · exact absurd rfl hb
        · simp only [isAbsL, List.head?_cons, Option.some.injEq,
            decide_eq_false_iff_not]
          intro hc
          exact hslash (hc ▸ List.mem_cons_self c bs)
      have hA : joinStep core b = core ++ '/' :: b := by
        unfold joinStep
        rw [if_neg (by simp [habs]), if_neg (by simp [h1, h2])]
      have hB : joinStep (core ++ ['/']) b = core ++ '/' :: b := by
        unfold joinStep
        rw [if_neg (by simp [habs]),
          if_pos (Or.inr (List.getLast?_concat core)), List.append_assoc]
        rfl
      have hcore2 : core ++ '/' :: b ≠ [] := by simp
      have hlast2 : (core ++ '/' :: b).getLast? ≠ some '/' := by
        have hbl : b.getLast? ≠ some '/' := by
          rw [List.getLast?_eq_getLast b hb]
          intro hc
          injection hc with h'
          exact hslash (h' ▸ List.getLast_mem hb)
        rw [show core ++ '/' :: b = core ++ ['/'] ++ b by simp,
          List.getLast?_append_of_ne_nil _ hb]
        exact hbl
      have hrec := (ih (core ++ '/' :: b) hcore2 hlast2 hall').1
      have hbe : b.isEmpty = false := by
        rcases b with _ | ⟨c, bs⟩
        · exact absurd rfl hb
        · rfl
      constructor
      · rw [List.foldl_cons, hA, hrec, interSlash_glue, List.filter_cons]
        simp only [hbe, Bool.not_false, if_true]
        rw [interSlash]
        cases t' with
        | nil =>
          simp only [List.getLast?_nil, List.getLast?_singleton]
          simp [hb]
        | cons z zs => simp [List.getLast?_cons_cons]
      · rw [List.foldl_cons, hB, hrec, interSlash_glue, List.filter_cons]
        simp only [hbe, Bool.not_false, if_true]
        rw [interSlash]
        cases t' with
        | nil =>
          simp only [List.getLast?_nil, List.getLast?_singleton]
          simp [hb]
        | cons z zs => simp [List.getLast?_cons_cons]

/-- Characterization of the posix join of slash-free components: the
slash-joined nonempty components, plus one trailing slash when the last
component is empty. -/
theorem joinParts_char (parts : List (List Char))
    (h : ∀ x ∈ parts, '/' ∉ x) :
    joinParts parts =
      if parts.filter (fun x => !x.isEmpty) = [] then []
      else interSlash (parts.filter (fun x => !x.isEmpty)) ++
        (if parts.getLast? = some ([] : List Char) then ['/'] else []) := by
  induction parts with
  | nil => rfl
  | cons x rest ih =>
    by_cases hx : x = []
    · subst hx
      rw [joinParts_nil_cons, ih (fun y hy => h y (List.mem_cons_of_mem [] hy))]
      rw [List.filter_cons]
      simp only [List.isEmpty_nil, Bool.not_true, Bool.false_eq_true, if_false]
      cases rest with
      | nil => rfl
      | cons z zs => rw [List.getLast?_cons_cons]
    · have hxe : x.isEmpty = false := by
        rcases x with _ | ⟨c, cs⟩
        · exact absurd rfl hx
        · rfl
      have hlast : x.getLast? ≠ some '/' := by
        rw [List.getLast?_eq_getLast x hx]
        intro hc
        injection hc with h'
        exact h x (List.mem_cons_self x rest) (h' ▸ List.getLast_mem hx)
      have hfold := (foldl_joinStep rest x hx hlast
        (fun y hy => h y (List.mem_cons_of_mem x hy))).1
      have hstart : joinParts (x :: rest) = List.foldl joinStep x rest := rfl
      rw [hstart, hfold, List.filter_cons]
      simp only [hxe, Bool.not_false, if_true]
      rw [if_neg (List.cons_ne_nil x (List.filter (fun y => !y.isEmpty) rest))]
      cases rest with
      | nil =>
        simp only [List.getLast?_nil, List.getLast?_singleton]
        simp [hx]
      | cons z zs => rw [List.getLast?_cons_cons]

theorem splitSlash_single (x : List Char) (h : '/' ∉ x) :
    splitSlash x = [x] := by
  induction x with
  | nil => rfl
  | cons c cs ih =>
    have hc : ¬ c = '/' := fun hx => h (hx ▸ List.mem_cons_self c cs)
    have ihs : splitSlash cs = [cs] :=
      ih (fun hx => h (List.mem_cons_of_mem c hx))
    simp [splitSlash, hc, ihs]

theorem splitSlash_append (x r : List Char) (h : '/' ∉ x) :
    splitSlash (x ++ '/' :: r) = x :: splitSlash r := by
  induction x with
  | nil => simp [splitSlash]
  | cons c cs ih =>
    have hc : ¬ c = '/' := fun hx => h (hx ▸ List.mem_cons_self c cs)
    have ihs := ih (fun hx => h (List.mem_cons_of_mem c hx))
    simp only [List.cons_append, splitSlash, hc, if_false]
    rw [List.append_eq, ihs]

theorem splitSlash_interSlash (ps : List (List Char))
    (hps : ∀ x ∈ ps, '/' ∉ x) (hne : ps ≠ []) :
    splitSlash (interSlash ps) = ps := by
  induction ps with
  | nil => exact absurd rfl hne
  | cons x rest ih =>
    cases rest with
    | nil => exact splitSlash_single x (hps x (List.mem_cons_self x []))
    | cons y ys =>
      rw [interSlash,
        splitSlash_append _ _ (hps x (List.mem_cons_self x (y :: ys))),
        ih (fun z hz => hps z (List.mem_cons_of_mem x hz)) (by simp)]

theorem getLast?_ne_empty (ne : List (List Char)) (h : ∀ x ∈ ne, x ≠ []) :
    ne.getLast? ≠ some ([] : List Char) := by
  intro hc
  rcases ne with _ | ⟨a, as⟩
  · cases hc
  · rw [List.getLast?_eq_getLast (a :: as) (by simp)] at hc
    injection hc with h'
    exact h ((a :: as).getLast (by simp)) (List.getLast_mem (by simp)) h'

/-- The normalized body is a fixed point of split-then-join. -/
theorem joinParts_fix (parts : List (List Char))
    (h : ∀ x ∈ parts, '/' ∉ x) :
    joinParts (splitSlash (joinParts parts)) = joinParts parts := by
  rw [joinParts_char parts h]
  by_cases hf : parts.filter (fun x => !x.isEmpty) = []
  · rw [if_pos hf]
    rfl
  · rw [if_neg hf]
    have hno : ∀ x ∈ parts.filter (fun x => !x.isEmpty), '/' ∉ x :=
      fun x hx => h x (List.mem_filter.mp hx).1
    have hnonil : ∀ x ∈ parts.filter (fun x => !x.isEmpty), x ≠ [] := by
      intro x hx hc
      have h2 := (List.mem_filter.mp hx).2
      rw [hc] at h2
      simp at h2
    have hself : List.filter (fun y => !y.isEmpty)
        (parts.filter (fun x => !x.isEmpty)) =
        parts.filter (fun x => !x.isEmpty) :=
      List.filter_eq_self.mpr (fun a ha => (List.mem_filter.mp ha).2)
    by_cases hl : parts.getLast? = some ([] : List Char)
    · rw [if_pos hl, ← interSlash_concat_empty _ hf]
      have hno2 : ∀ x ∈ parts.filter (fun x => !x.isEmpty) ++ [[]], '/' ∉ x := by
        intro x hx
        rcases List.mem_append.mp hx with hx | hx
        · exact hno x hx
        · simp at hx
          simp [hx]
      rw [splitSlash_interSlash _ hno2 (by simp), joinParts_char _ hno2,
        List.filter_append]
      have hfe : List.filter (fun y => !y.isEmpty) [([] : List Char)] = [] :=
        rfl
      rw [hfe, List.append_nil, hself, if_neg hf, List.getLast?_concat,
        if_pos rfl, interSlash_concat_empty _ hf]
    · rw [if_neg hl, List.append_nil, splitSlash_interSlash _ hno hf,
        joinParts_char _ hno, hself, if_neg hf,
        if_neg (getLast?_ne_empty _ hnonil), List.append_nil]

/-- Elements of the nonempty-component filtering. -/
theorem mem_neFilter {parts : List (List Char)} {x : List Char}
    (h : ∀ y ∈ parts, '/' ∉ y)
    (hx : x ∈ parts.filter (fun y => !y.isEmpty)) : '/' ∉ x ∧ x ≠ [] := by
  rcases List.mem_filter.mp hx with ⟨hmem, hne⟩
  refine ⟨h x hmem, ?_⟩
  intro hc
  rw [hc] at hne
  simp at hne

theorem splitSlash_slash_cons (x : List Char) :
    splitSlash ('/' :: x) = [] :: splitSlash x := by
  simp [splitSlash]

theorem interSlash_head (x : List Char) (l : List (List Char)) (hx : x ≠ []) :
    (interSlash (x :: l)).head? = x.head? := by
  cases l with
  | nil => rfl
  | cons y ys =>
    rw [interSlash, List.head?_append]
    rcases x with _ | ⟨c, cs⟩
    · exact absurd rfl hx
    · rfl

/-- `normpath` preserves the absolute/relative distinction. -/
theorem normpathL_isAbs (l : List Char) : isAbsL (normpathL l) = isAbsL l := by
  by_cases ha : isAbsL l = true
  · unfold normpathL
    rw [if_pos ha, ha]
    rfl
  · unfold normpathL
    rw [if_neg ha]
    have ha' : isAbsL l = false := by
      rcases hb : isAbsL l with _ | _
      · rfl
      · exact absurd hb ha
    rw [ha', joinParts_char _ (noslash_mem_splitSlash l)]
    by_cases hf : (splitSlash l).filter (fun x => !x.isEmpty) = []
    · rw [if_pos hf]
      rfl
    · rw [if_neg hf]
      rcases hg : (splitSlash l).filter (fun x => !x.isEmpty) with _ | ⟨n, ns⟩
      · exact absurd hg hf
      · have hn : '/' ∉ n ∧ n ≠ [] :=
          mem_neFilter (noslash_mem_splitSlash l)
            (hg ▸ List.mem_cons_self n ns)
        rcases hc : n with _ | ⟨c, cs⟩
        · exact absurd hc hn.2
        · have hch : ¬ c = '/' := by
            intro hcc
            exact hn.1 (hc ▸ (hcc ▸ List.mem_cons_self c cs))
          rw [hg]
          unfold isAbsL
          rw [List.head?_append, interSlash_head _ _ (hc ▸ hn.2), hc]
          simp [hch]

/-- `normpath` is idempotent. -/
theorem normpathL_idem (l : List Char) :
    normpathL (normpathL l) = normpathL l := by
  by_cases ha : isAbsL l = true
  · have e1 : normpathL l = '/' :: joinParts (splitSlash l) := by
      unfold normpathL
      rw [if_pos ha]
    rw [e1]
    unfold normpathL
    rw [if_pos (show isAbsL ('/' :: joinParts (splitSlash l)) = true from rfl)]
    rw [splitSlash_slash_cons, joinParts_nil_cons,
      joinParts_fix _ (noslash_mem_splitSlash l)]
  · have e1 : normpathL l = joinParts (splitSlash l) := by
      unfold normpathL
      rw [if_neg ha]
    rw [e1]
    have ha2 : ¬ isAbsL (joinParts (splitSlash l)) = true := by
      rw [← e1, normpathL_isAbs l]
      exact ha
    unfold normpathL
    rw [if_neg ha2]
    exact joinParts_fix _ (noslash_mem_splitSlash l)

/-- No interior component of a normalized path is empty: only the leading one
(absolute paths) and the trailing one (paths ending in a slash) may be. -/
theorem normpath_interior (l : List Char) :
    ∀ part ∈ ((splitSlash (normpathL l)).drop 1).dropLast, part ≠ [] := by
  have hno := noslash_mem_splitSlash l
  have hchar := joinParts_char (splitSlash l) hno
  by_cases hf : (splitSlash l).filter (fun x => !x.isEmpty) = []
  · rw [if_pos hf] at hchar
    by_cases ha : isAbsL l = true
    · have e : normpathL l = ['/'] := by
        unfold normpathL
        rw [if_pos ha, hchar]
      rw [e]
      intro part hp
      have hsp : splitSlash ['/'] = [[], []] := rfl
      rw [hsp] at hp
      simp at hp
    · have e : normpathL l = [] := by
        unfold normpathL
        rw [if_neg ha, hchar]
      rw [e]
      intro part hp
      have hsp : splitSlash ([] : List Char) = [[]] := rfl
      rw [hsp] at hp
      simp at hp
  · rcases hg : (splitSlash l).filter (fun x => !x.isEmpty) with _ | ⟨n, ns⟩
    · exact absurd hg hf
    have hmem : ∀ x ∈ n :: ns, '/' ∉ x ∧ x ≠ [] :=
      fun x hx => mem_neFilter hno (hg ▸ hx)
    by_cases hl : (splitSlash l).getLast? = some ([] : List Char)
    · rw [if_neg hf, if_pos hl, hg] at hchar
      have hsplit : splitSlash (joinParts (splitSlash l)) =
          (n :: ns) ++ [[]] := by
        rw [hchar, ← interSlash_concat_empty _ (List.cons_ne_nil n ns),
          splitSlash_interSlash _ ?_ (by simp)]
        intro x hx
        rcases List.mem_append.mp hx with hx | hx
        · exact (hmem x hx).1
        · simp at hx
          simp [hx]
      by_cases ha : isAbsL l = true
      · have e : normpathL l = '/' :: joinParts (splitSlash l) := by
          unfold normpathL
          rw [if_pos ha]
        rw [e, splitSlash_slash_cons, hsplit]
        intro part hp
        have hd : (([] : List Char) :: ((n :: ns) ++ [[]])).drop 1 =
            n :: (ns ++ [[]]) := rfl
        rw [hd, show n :: (ns ++ [[]]) = (n :: ns) ++ [[]] from rfl,
          List.dropLast_concat] at hp
        exact (hmem part hp).2
      · have e : normpathL l = joinParts (splitSlash l) := by
          unfold normpathL
          rw [if_neg ha]
        rw [e, hsplit]
        intro part hp
        have hd : ((n :: ns) ++ [[]]).drop 1 = ns ++ [[]] := rfl
        rw [hd, List.dropLast_concat] at hp
        exact (hmem part (List.mem_cons_of_mem n hp)).2
    · rw [if_neg hf, if_neg hl, List.append_nil, hg] at hchar
      have hsplit : splitSlash (joinParts (splitSlash l)) = n :: ns := by
        rw [hchar]
        exact splitSlash_interSlash _ (fun x hx => (hmem x hx).1) (by simp)
      by_cases ha : isAbsL l = true
      · have e : normpathL l = '/' :: joinParts (splitSlash l) := by
          unfold normpathL
          rw [if_pos ha]
        rw [e, splitSlash_slash_cons, hsplit]
        intro part hp
        have hd : (([] : List Char) :: n :: ns).drop 1 = n :: ns := rfl
        rw [hd] at hp
        exact (hmem part (List.dropLast_subset _ hp)).2
      · have e : normpathL l = joinParts (splitSlash l) := by
          unfold normpathL
          rw [if_neg ha]
        rw [e, hsplit]
        intro part hp
        have hd : (n :: ns).drop 1 = ns := rfl
        rw [hd] at hp
        exact (hmem part
          (List.mem_cons_of_mem n (List.dropLast_subset _ hp))).2

/-! ## Claims C4 and C9 -/

/-- Claim C4: `normpath` is idempotent — normalizing an already-normalized
(native-form) path returns it unchanged — and for every input the output is
absolute exactly when the input is. -/
theorem c4_normpath_idem (p : String) :
    normpath (normpath p) = normpath p ∧
    isAbsL (normpath p).data = isAbsL p.data :=
  ⟨congrArg String.mk (normpathL_idem p.data), normpathL_isAbs p.data⟩

/-- Claim C9 (counterexample): a trailing separator is not dropped —
`normpath "a/"` returns `"a/"`, whose component split still contains the
empty trailing component, so not every empty component is dropped. -/
theorem c9_counterexample :
    normpath "a/" = "a/" ∧
    ¬ (∀ part ∈ splitSlash ((normpath "a/").data), part ≠ []) := by
  constructor
  · decide
  · intro hall
    exact hall [] (by decide) rfl

/-- Claim C9 (amended): `normpath` collapses repeated interior separators —
`normpath "a//b" = normpath "a/b"`, and no interior component of any
normalized path is empty — and the empty string maps to itself; but a single
trailing separator is preserved rather than dropped. -/
theorem c9_empty_components :
    normpath "a//b" = normpath "a/b" ∧
    normpath "" = "" ∧
    normpath "a/" = "a/" ∧
    ∀ (p : String),
      ∀ part ∈ ((splitSlash ((normpath p).data)).drop 1).dropLast,
        part ≠ [] :=
  ⟨by decide, by decide, by decide, fun p => normpath_interior p.data⟩

/-- Witness for C9: the interior component `b` of `normpath "a//b/c"`. -/
theorem c9_empty_components_witness :
    (['b'] ∈ ((splitSlash ((normpath "a//b/c").data)).drop 1).dropLast) ∧
    ['b'] ≠ [] :=
  ⟨by decide, c9_empty_components.2.2.2 "a//b/c" ['b'] (by decide)⟩

end PrepareJvmRelease
